import Mathlib

/-!
Verification of the browser-driven Outlook e-mail sender (src/index.js).

The JavaScript source is shallowly embedded: the control flow of the
relevant functions is translated into executable Lean definitions.
Browser/DOM behaviour, which the program only observes through Playwright
calls that may succeed, fail, or return data, is supplied as an explicit
environment value, and the wall clock is modelled by counting the
milliseconds of the explicit `delay(ms)` calls the code awaits (real
elapsed time is at least that).  JavaScript numbers used for the retry
delays are modelled as exact rationals.
-/

namespace EmailApi

/-! ## Retry executor (`retryOperation`, src/index.js lines 64-83) -/

/-- Outcome of a `retryOperation` run: the value returned or the error
thrown (`Except.error none` models throwing the never-assigned
`lastError`, i.e. JavaScript `undefined`), how many times the operation
was invoked, and the delays awaited between attempts, in order. -/
structure RetryResult (E A : Type) where
  result : Except (Option E) A
  invocations : Nat
  delays : List ℚ

/-- The `for (let attempt = 1; attempt <= maxRetries; attempt++)` loop of
`retryOperation`, recursing on the number of remaining attempts.
`op` maps the attempt number to that attempt's outcome.  After a failed
attempt, if attempts remain (`attempt < maxRetries`) the current delay is
awaited and then multiplied by 1.5 (`delayMs *= 1.5`); after the last
attempt the saved `lastError` is thrown. -/
def retryLoop (op : Nat → Except E A) : Nat → Nat → ℚ → Option E → RetryResult E A
  | _, 0, _, lastError => ⟨.error lastError, 0, []⟩
  | attempt, remaining + 1, delayMs, _ =>
    match op attempt with
    | .ok a => ⟨.ok a, 1, []⟩
    | .error e =>
      if remaining = 0 then ⟨.error (some e), 1, []⟩
      else
        let rest := retryLoop op (attempt + 1) remaining (delayMs * 1.5) (some e)
        ⟨rest.result, rest.invocations + 1, delayMs :: rest.delays⟩

/-- `retryOperation(operation, maxRetries, delayMs)` (src/index.js 64-83).
Attempt numbers start at 1. -/
def retryOperation (op : Nat → Except E A) (maxRetries : Nat) (delayMs : ℚ) :
    RetryResult E A :=
  retryLoop op 1 maxRetries delayMs none

theorem retryLoop_ok_step (op : Nat → Except E A) (a n : Nat) (d : ℚ)
    (last : Option E) (v : A) (hop : op a = .ok v) :
    retryLoop op a (n + 1) d last = ⟨.ok v, 1, []⟩ := by
  simp [retryLoop, hop]

theorem retryLoop_last_step (op : Nat → Except E A) (a : Nat) (d : ℚ)
    (last : Option E) (e : E) (hop : op a = .error e) :
    retryLoop op a 1 d last = ⟨.error (some e), 1, []⟩ := by
  simp [retryLoop, hop]

theorem retryLoop_error_step (op : Nat → Except E A) (a n : Nat) (d : ℚ)
    (last : Option E) (e : E) (hop : op a = .error e) (hn : n ≠ 0) :
    retryLoop op a (n + 1) d last =
      ⟨(retryLoop op (a + 1) n (d * 1.5) (some e)).result,
       (retryLoop op (a + 1) n (d * 1.5) (some e)).invocations + 1,
       d :: (retryLoop op (a + 1) n (d * 1.5) (some e)).delays⟩ := by
  simp [retryLoop, hop, hn]

/-- The loop performs at most `remaining` invocations of the operation. -/
theorem retryLoop_invocations_le (op : Nat → Except E A) (r : Nat) :
    ∀ (a : Nat) (d : ℚ) (last : Option E),
      (retryLoop op a r d last).invocations ≤ r := by
  induction r with
  | zero => intro a d last; simp [retryLoop]
  | succ n ih =>
    intro a d last
    cases h : op a with
    | ok v => rw [retryLoop_ok_step op a n d last v h]; simp
    | error e =>
      by_cases hn : n = 0
      · subst hn; rw [retryLoop_last_step op a d last e h]
      · rw [retryLoop_error_step op a n d last e h hn]
        exact Nat.succ_le_succ (ih (a + 1) (d * 1.5) (some e))

/-- With at least one attempt, exactly one fewer delay is awaited than
there are invocations: a delay separates consecutive attempts and none
is awaited after the final attempt. -/
theorem retryLoop_delays_length (op : Nat → Except E A) (r : Nat) :
    ∀ (a : Nat) (d : ℚ) (last : Option E), 1 ≤ r →
      (retryLoop op a r d last).delays.length + 1 =
        (retryLoop op a r d last).invocations := by
  induction r with
  | zero => intro a d last h; omega
  | succ n ih =>
    intro a d last _
    cases h : op a with
    | ok v => rw [retryLoop_ok_step op a n d last v h]; rfl
    | error e =>
      by_cases hn : n = 0
      · subst hn; rw [retryLoop_last_step op a d last e h]; rfl
      · rw [retryLoop_error_step op a n d last e h hn]
        have := ih (a + 1) (d * 1.5) (some e) (Nat.one_le_iff_ne_zero.mpr hn)
        simp only [List.length_cons]
        omega

/-- The `i`-th awaited delay is the initial delay multiplied by `1.5 ^ i`. -/
theorem retryLoop_delays_get (op : Nat → Except E A) (r : Nat) :
    ∀ (a : Nat) (d : ℚ) (last : Option E) (i : Nat),
      i < (retryLoop op a r d last).delays.length →
      (retryLoop op a r d last).delays.get? i = some (d * 1.5 ^ i) := by
  induction r with
  | zero => intro a d last i h; simp [retryLoop] at h
  | succ n ih =>
    intro a d last i h
    cases hop : op a with
    | ok v =>
      rw [retryLoop_ok_step op a n d last v hop] at h
      simp at h
    | error e =>
      by_cases hn : n = 0
      · subst hn
        rw [retryLoop_last_step op a d last e hop] at h
        simp at h
      · rw [retryLoop_error_step op a n d last e hop hn] at h ⊢
        cases i with
        | zero => simp
        | succ j =>
          have hj : j < (retryLoop op (a + 1) n (d * 1.5) (some e)).delays.length := by
            simpa using h
          have hrec := ih (a + 1) (d * 1.5) (some e) j hj
          simp only [List.get?_cons_succ]
          rw [hrec]
          congr 1
          ring

/-- If every attempt in the window fails, the loop's result is the error
raised by the last attempt. -/
theorem retryLoop_all_fail (op : Nat → Except E A) (r : Nat) :
    ∀ (a : Nat) (d : ℚ) (last : Option E), 1 ≤ r →
      (∀ k, a ≤ k → k < a + r → ∃ e, op k = .error e) →
      ∃ e, op (a + r - 1) = .error e ∧
        (retryLoop op a r d last).result = .error (some e) := by
  induction r with
  | zero => intro a d last h; omega
  | succ n ih =>
    intro a d last _ hall
    obtain ⟨e, he⟩ := hall a (Nat.le_refl a) (by omega)
    by_cases hn : n = 0
    · subst hn
      refine ⟨e, by simpa using he, ?_⟩
      rw [retryLoop_last_step op a d last e he]
    · obtain ⟨e', he', hres⟩ := ih (a + 1) (d * 1.5) (some e)
        (Nat.one_le_iff_ne_zero.mpr hn)
        (fun k hk1 hk2 => hall k (by omega) (by omega))
      refine ⟨e', by convert he' using 2; omega, ?_⟩
      rw [retryLoop_error_step op a n d last e he hn]
      exact hres

/-- C2: for `retryOperation` with `maxAttempts = N ≥ 1` and initial delay
`d`: the operation is invoked at most `N` times; exactly one fewer delay
is awaited than attempts are made (so no delay follows the final
attempt); the `i`-th awaited delay is `d * 1.5 ^ i` — hence the first
awaited delay (before attempt 2) is `d` and each subsequent delay is the
previous one times 1.5; and if every attempt fails, the propagated error
is the one raised by the `N`-th (last) attempt. -/
theorem retry_executor_spec (op : Nat → Except E A) (N : Nat) (d : ℚ)
    (hN : 1 ≤ N) :
    (retryOperation op N d).invocations ≤ N ∧
    (retryOperation op N d).delays.length + 1 =
      (retryOperation op N d).invocations ∧
    (∀ i, i < (retryOperation op N d).delays.length →
      (retryOperation op N d).delays.get? i = some (d * 1.5 ^ i)) ∧
    (∀ i, i + 1 < (retryOperation op N d).delays.length →
      (retryOperation op N d).delays.get? (i + 1) =
        ((retryOperation op N d).delays.get? i).map (fun x => x * 1.5)) ∧
    ((∀ k, 1 ≤ k → k ≤ N → ∃ e, op k = .error e) →
      ∃ e, op N = .error e ∧
        (retryOperation op N d).result = .error (some e)) := by
  simp only [retryOperation]
  refine ⟨retryLoop_invocations_le op N 1 d none,
    retryLoop_delays_length op N 1 d none hN, ?_, ?_, ?_⟩
  · intro i h
    exact retryLoop_delays_get op N 1 d none i h
  · intro i h
    rw [retryLoop_delays_get op N 1 d none (i + 1) h,
      retryLoop_delays_get op N 1 d none i (by omega)]
    exact congrArg some (by ring)
  · intro hall
    obtain ⟨e, he, hres⟩ := retryLoop_all_fail op N 1 d none hN
      (fun k hk1 hk2 => hall k hk1 (by omega))
    refine ⟨e, ?_, hres⟩
    have h1 : 1 + N - 1 = N := by omega
    rwa [h1] at he

/-- Witness for C2: a concrete run with `N = 2`, `d = 5000` and an
always-failing operation. -/
theorem retry_executor_spec_witness :
    (retryOperation (fun _ => (Except.error 7 : Except Nat Nat)) 2 5000).invocations ≤ 2 ∧
    (retryOperation (fun _ => (Except.error 7 : Except Nat Nat)) 2 5000).result =
      Except.error (some 7) := by
  have h := retry_executor_spec (fun _ => (Except.error 7 : Except Nat Nat))
    2 5000 (by omega)
  refine ⟨h.1, ?_⟩
  obtain ⟨e, he, hres⟩ := h.2.2.2.2 (fun k _ _ => ⟨7, rfl⟩)
  have he7 : e = 7 := by
    have h2 := he.symm
    injection h2
  rw [he7] at hres
  exact hres

/-- C8: `retryOperation` with `maxRetries = 0` never invokes the
operation, awaits no delay, and throws the never-assigned `lastError`
(JavaScript `undefined`, modelled `none`) instead of any operation
error. -/
theorem retry_zero_attempts (op : Nat → Except E A) (d : ℚ) :
    retryOperation op 0 d =
      ⟨Except.error none, 0, []⟩ := rfl

/-! ## Locator-fallback chain for the compose ("Novo email") button
    (src/index.js lines 217-337) -/

/-- The declared selector list `seletoresNovoEmail` (src/index.js 217-228). -/
def seletoresNovoEmail : List String :=
  ["button.splitPrimaryButton[aria-label=\"Novo email\"]",
   "button.splitPrimaryButton[aria-label*=\"Novo\"]",
   "[data-automation-type=\"RibbonSplitButton\"][aria-label=\"Novo email\"] button.splitPrimaryButton",
   "[data-automation-type=\"RibbonSplitButton\"][aria-label*=\"Novo\"] button.splitPrimaryButton",
   ".splitButtonContainer button.splitPrimaryButton",
   "[data-automationid=\"splitbuttonprimary\"]",
   "button:has-text(\"Novo email\")",
   "button:has-text(\"Novo\")",
   "[aria-label=\"Novo email\"]",
   "[aria-label*=\"Novo\"]"]

/-- What the page reports for one element matched by a selector rule:
the result of the `isButtonPrimary` in-page evaluation (`none` means the
evaluation threw), the result of `isVisible` (`none` means it threw), and
whether the scroll/focus/click interaction sequence succeeds. -/
structure Candidate where
  isPrimary : Option Bool
  visible : Option Bool
  clickOk : Bool
deriving DecidableEq, Repr

/-- What the page reports for one selector rule: the locator count threw,
or the list of matched elements. -/
inductive RuleEnv where
  | throws
  | cands (elems : List Candidate)
deriving DecidableEq, Repr

/-- Observable events of the compose-button resolution. -/
inductive Ev where
  | tryRule (rule : Nat)
  | examine (rule : Nat) (cand : Nat)
  | jsFallback (found : Bool)
deriving DecidableEq, Repr

/-- A candidate the inner loop actually clicks: `isButtonPrimary`
evaluated to `true`, `isVisible` returned `true`, and the click
(wrapped in its own retry) succeeded. -/
def candidateUsable (c : Candidate) : Bool :=
  c.isPrimary == some true && c.visible == some true && c.clickOk

/-- The inner `for (let i = 0; i < indiceMax; i++)` loop over the first
`min(count, 5)` candidates (`indiceMax = Math.min(quantidade, 5)`, fuel
starts at 5): returns how many candidates were examined and whether one
was clicked.  A candidate whose predicate evaluation throws or returns
false, whose visibility check throws or returns false, or whose click
throws, is skipped (`continue`). -/
def scanCands : List Candidate → Nat → Nat × Bool
  | _, 0 => (0, false)
  | [], _ => (0, false)
  | c :: rest, fuel + 1 =>
    if candidateUsable c then (1, true)
    else
      let p := scanCands rest fuel
      (p.1 + 1, p.2)

/-- Whether a selector rule produces a click (sets `botaoClicado`). -/
def ruleClicks : RuleEnv → Bool
  | .throws => false
  | .cands l => (scanCands l 5).2

/-- How many candidates of a rule the loop examines. -/
def examinedCount : RuleEnv → Nat
  | .throws => 0
  | .cands l => (scanCands l 5).1

/-- Trace of one rule: the rule is tried, then its candidates examined
in index order. -/
def ruleEvents (idx : Nat) (r : RuleEnv) : List Ev :=
  Ev.tryRule idx :: (List.range (examinedCount r)).map (fun k => Ev.examine idx k)

/-- The outer `for (const seletor of seletoresNovoEmail)` loop
(src/index.js 233-296): rules are tried in declared order; the loop
breaks once `botaoClicado` is set. -/
def runChain : List RuleEnv → Nat → Bool × List Ev
  | [], _ => (false, [])
  | r :: rest, idx =>
    if ruleClicks r then (true, ruleEvents idx r)
    else
      let p := runChain rest (idx + 1)
      (p.1, ruleEvents idx r ++ p.2)

/-- Number of rules the chain tries before stopping. -/
def chainLen : List RuleEnv → Nat
  | [] => 0
  | r :: rest => if ruleClicks r then 1 else chainLen rest + 1

/-- The whole compose-button resolution (src/index.js 230-337): the
structural chain, followed — only when no structural rule clicked — by
the scripted in-page search (`pagina.evaluate`), whose outcome is
`js`. -/
def resolveCompose (rules : List RuleEnv) (js : Bool) : Bool × List Ev :=
  let p := runChain rules 0
  if p.1 then p else (js, p.2 ++ [Ev.jsFallback js])

/-- The rule indices tried, in trace order. -/
def triedIdx (evs : List Ev) : List Nat :=
  evs.filterMap (fun e => match e with | Ev.tryRule i => some i | _ => none)

theorem triedIdx_append (l1 l2 : List Ev) :
    triedIdx (l1 ++ l2) = triedIdx l1 ++ triedIdx l2 :=
  List.filterMap_append l1 l2 _

theorem triedIdx_ruleEvents (idx : Nat) (r : RuleEnv) :
    triedIdx (ruleEvents idx r) = [idx] := by
  simp only [triedIdx, ruleEvents, List.filterMap_cons, List.filterMap_map]
  have h : ∀ l : List Nat,
      List.filterMap ((fun e => match e with | Ev.tryRule i => some i | _ => none) ∘
        (fun k => Ev.examine idx k)) l = [] := by
    intro l
    induction l with
    | nil => rfl
    | cons x xs ih => simp [List.filterMap_cons, ih]
  rw [h]

theorem runChain_triedIdx (rules : List RuleEnv) :
    ∀ idx, triedIdx (runChain rules idx).2 = List.range' idx (chainLen rules) := by
  induction rules with
  | nil => intro idx; simp [runChain, chainLen, triedIdx]
  | cons r rest ih =>
    intro idx
    by_cases h : ruleClicks r = true
    · simp [runChain, chainLen, h, triedIdx_ruleEvents, List.range'_one]
    · simp only [runChain, chainLen, h, if_false, Bool.false_eq_true]
      rw [triedIdx_append, triedIdx_ruleEvents, ih (idx + 1), List.range'_succ]
      rfl

theorem chainLen_le_length (rules : List RuleEnv) :
    chainLen rules ≤ rules.length := by
  induction rules with
  | nil => simp [chainLen]
  | cons r rest ih =>
    by_cases h : ruleClicks r = true
    · simp [chainLen, h]
    · simp only [chainLen, h, if_false, List.length_cons, Bool.false_eq_true]
      omega

theorem chainLen_stops (rules : List RuleEnv) :
    ∀ i (h : i < rules.length), ruleClicks (rules.get ⟨i, h⟩) = true →
      chainLen rules ≤ i + 1 := by
  induction rules with
  | nil => intro i h; simp at h
  | cons r rest ih =>
    intro i h hclick
    by_cases hr : ruleClicks r = true
    · simp [chainLen, hr]
    · simp only [chainLen, hr, if_false, Bool.false_eq_true]
      cases i with
      | zero => simp at hclick; rw [hclick] at hr; simp at hr
      | succ j =>
        have := ih j (by simpa using h) (by simpa using hclick)
        omega

theorem runChain_fst (rules : List RuleEnv) :
    ∀ idx, (runChain rules idx).1 = rules.any ruleClicks := by
  induction rules with
  | nil => intro idx; simp [runChain]
  | cons r rest ih =>
    intro idx
    by_cases h : ruleClicks r = true
    · simp [runChain, h]
    · simp [runChain, h, ih (idx + 1)]

theorem runChain_no_jsFallback (rules : List RuleEnv) :
    ∀ idx b, Ev.jsFallback b ∉ (runChain rules idx).2 := by
  induction rules with
  | nil => intro idx b; simp [runChain]
  | cons r rest ih =>
    intro idx b
    have hre : ∀ i, Ev.jsFallback b ∉ ruleEvents i r := by
      intro i hmem
      simp only [ruleEvents, List.mem_cons, List.mem_map] at hmem
      rcases hmem with h | ⟨k, _, h⟩ <;> exact Ev.noConfusion h
    by_cases h : ruleClicks r = true
    · simp only [runChain, h, if_true]
      exact hre idx
    · simp only [runChain, h, if_false, Bool.false_eq_true]
      intro hmem
      rcases List.mem_append.mp hmem with hm | hm
      · exact hre idx hm
      · exact ih (idx + 1) b hm

theorem scanCands_fst_le (l : List Candidate) :
    ∀ n, (scanCands l n).1 ≤ n := by
  induction l with
  | nil => intro n; cases n <;> simp [scanCands]
  | cons c rest ih =>
    intro n
    cases n with
    | zero => simp [scanCands]
    | succ m =>
      by_cases h : candidateUsable c = true
      · simp [scanCands, h]
      · simp only [scanCands, h, if_false, Bool.false_eq_true]
        have := ih m
        omega

theorem examinedCount_le_five (r : RuleEnv) : examinedCount r ≤ 5 := by
  cases r with
  | throws => simp [examinedCount]
  | cands l => exact scanCands_fst_le l 5

theorem runChain_examine_lt_five (rules : List RuleEnv) :
    ∀ idx i k, Ev.examine i k ∈ (runChain rules idx).2 → k < 5 := by
  induction rules with
  | nil => intro idx i k h; simp [runChain] at h
  | cons r rest ih =>
    intro idx i k
    have hre : ∀ j, Ev.examine i k ∈ ruleEvents j r → k < 5 := by
      intro j hmem
      simp only [ruleEvents, List.mem_cons, List.mem_map] at hmem
      rcases hmem with h | ⟨m, hm, h⟩
      · exact Ev.noConfusion h
      · have hk : m = k := by
          injection h with h1 h2
        have : m < examinedCount r := List.mem_range.mp hm
        have := examinedCount_le_five r
        omega
    by_cases h : ruleClicks r = true
    · simp only [runChain, h, if_true]
      exact hre idx
    · simp only [runChain, h, if_false, Bool.false_eq_true]
      intro hmem
      rcases List.mem_append.mp hmem with hm | hm
      · exact hre idx hm
      · exact ih (idx + 1) i k hm

/-- C1 (amended): rules are tried strictly in declared order, starting at
the first rule; the chain stops at the first rule yielding a candidate
that passes the disambiguation predicate, is visible, AND whose click
succeeds (rules after such a rule are never invoked — but a rule whose
visible, predicate-passing candidates all fail to click does NOT stop
the chain); at most 5 candidates are examined per rule; and the scripted
in-page search runs exactly when no structural rule produced a
successfully-clicked element. -/
theorem compose_chain_behavior (rules : List RuleEnv) (js : Bool) :
    triedIdx (resolveCompose rules js).2 = List.range (chainLen rules) ∧
    chainLen rules ≤ rules.length ∧
    (∀ i (h : i < rules.length), ruleClicks (rules.get ⟨i, h⟩) = true →
      chainLen rules ≤ i + 1) ∧
    (∀ i k, Ev.examine i k ∈ (resolveCompose rules js).2 → k < 5) ∧
    ((Ev.jsFallback js ∈ (resolveCompose rules js).2) ↔
      ∀ r ∈ rules, ruleClicks r = false) ∧
    (resolveCompose rules js).1 = (rules.any ruleClicks || js) := by
  have hfst := runChain_fst rules 0
  have htried := runChain_triedIdx rules 0
  refine ⟨?_, chainLen_le_length rules, chainLen_stops rules, ?_, ?_, ?_⟩
  · simp only [resolveCompose]
    by_cases h : (runChain rules 0).1 = true
    · simp only [h, if_true]
      rw [htried, List.range_eq_range']
    · simp only [h, if_false, Bool.false_eq_true]
      rw [triedIdx_append, htried, List.range_eq_range']
      have : triedIdx [Ev.jsFallback js] = [] := rfl
      rw [this, List.append_nil]
  · intro i k hmem
    simp only [resolveCompose] at hmem
    by_cases h : (runChain rules 0).1 = true
    · simp only [h, if_true] at hmem
      exact runChain_examine_lt_five rules 0 i k hmem
    · simp only [h, if_false, Bool.false_eq_true] at hmem
      rcases List.mem_append.mp hmem with hm | hm
      · exact runChain_examine_lt_five rules 0 i k hm
      · simp at hm
  · constructor
    · intro hmem
      simp only [resolveCompose] at hmem
      by_cases h : (runChain rules 0).1 = true
      · simp only [h, if_true] at hmem
        exact absurd hmem (runChain_no_jsFallback rules 0 js)
      · intro r hr
        have hany : rules.any ruleClicks = false := by
          rw [← hfst]
          exact Bool.not_eq_true _ ▸ (by simpa using h)
        exact Bool.eq_false_iff.mpr ((List.any_eq_false.mp hany) r hr)
    · intro hall
      have hany : rules.any ruleClicks = false :=
        List.any_eq_false.mpr (fun x hx => by rw [hall x hx]; exact Bool.false_ne_true)
      have h : (runChain rules 0).1 = false := by rw [hfst]; exact hany
      simp only [resolveCompose, h, Bool.false_eq_true, if_false]
      exact List.mem_append_right _ (List.mem_singleton.mpr rfl)
  · simp only [resolveCompose]
    by_cases h : (runChain rules 0).1 = true
    · simp only [h, if_true]
      rw [hfst] at h
      simp [h, hfst]
    · have h' : (runChain rules 0).1 = false := by simpa using h
      rw [hfst] at h'
      simp [h', h]

/-- Witness for C1 (amended): a single rule with three unusable
candidates before a usable fourth — examined index 3 is below the cap
of 5 — and the clicking rule bounds the chain length. -/
theorem compose_chain_behavior_witness :
    (3 < 5) ∧
    chainLen [RuleEnv.cands [⟨some true, some false, true⟩,
      ⟨some true, some false, true⟩, ⟨some true, some false, true⟩,
      ⟨some true, some true, true⟩]] ≤ 0 + 1 := by
  have h := compose_chain_behavior [RuleEnv.cands [⟨some true, some false, true⟩,
    ⟨some true, some false, true⟩, ⟨some true, some false, true⟩,
    ⟨some true, some true, true⟩]] true
  exact ⟨h.2.2.2.1 0 3 (by decide), h.2.2.1 0 (by decide) (by decide)⟩

/-- C1 as stated is refuted: rule 0 yields a candidate that passes the
disambiguation predicate and is visible, yet — because its click
throws — rule 1 is still invoked afterwards. -/
theorem compose_chain_counterexample :
    (Candidate.mk (some true) (some true) false).isPrimary = some true ∧
    (Candidate.mk (some true) (some true) false).visible = some true ∧
    Ev.tryRule 1 ∈
      (resolveCompose
        [RuleEnv.cands [⟨some true, some true, false⟩],
         RuleEnv.cands [⟨some true, some true, true⟩]] false).2 := by
  decide

/-! ## The send operation `enviarEmail` (src/index.js lines 111-580) -/

inductive Level where
  | info
  | warn
  | error
deriving DecidableEq, Repr

/-- One entry of the in-memory log trail produced by the local `log`
helper (src/index.js 115-121); the `[timestamp]` prefix is elided. -/
structure LogEntry where
  level : Level
  msg : String
deriving DecidableEq, Repr

/-- In-flight state of one `enviarEmail` run: the log trail so far and
the milliseconds of explicit `delay(ms)` waits elapsed so far (the
in-loop waits of the selector chains are accounted for by their event
traces instead). -/
structure St where
  trail : List LogEntry
  clock : Nat
deriving DecidableEq, Repr

def stLog (lv : Level) (m : String) (s : St) : St :=
  ⟨s.trail ++ [⟨lv, m⟩], s.clock⟩

def stDelay (ms : Nat) (s : St) : St :=
  ⟨s.trail, s.clock + ms⟩

/-- Environment of the Cc block (src/index.js 357-376): the count the
`Mostrar Cc`/`Cc` button locator reports, whether clicking that button
succeeds, and whether the click-and-fill of the Cc field succeeds. -/
structure CcEnv where
  btnCount : Nat
  btnClickOk : Bool
  fieldOk : Bool
deriving DecidableEq, Repr

/-- Whether the Cc try-block throws somewhere (so that only a warning is
logged and the Cc field stays unfilled). -/
def ccFails (e : CcEnv) : Bool :=
  if 0 < e.btnCount then !e.btnClickOk || !e.fieldOk else !e.fieldOk

/-- The Cc block (src/index.js 357-376).  Runs only when `cc` is present
and non-empty; every failure inside is caught and logged as a warning,
never rethrown. -/
def ccPhase (cc : Option (List String)) (e : CcEnv) (s : St) : St :=
  match cc with
  | none => s
  | some l =>
    if l.length == 0 then s
    else
      let s := stLog .info "📋 Preenchendo cópia..." s
      if 0 < e.btnCount then
        if e.btnClickOk then
          let s := stDelay 2000 s
          if e.fieldOk then stDelay 3000 (stDelay 2000 s)
          else stLog .warn "⚠️ Erro ao preencher CC" s
        else stLog .warn "⚠️ Erro ao preencher CC" s
      else
        if e.fieldOk then stDelay 3000 (stDelay 2000 s)
        else stLog .warn "⚠️ Erro ao preencher CC" s

/-- The body selector list `seletoresCorpo` (src/index.js 389-395). -/
def seletoresCorpo : List String :=
  ["[aria-label=\"Corpo da mensagem\"]",
   "[aria-label*=\"Corpo\"]",
   "[aria-label*=\"Message body\"]",
   "[role=\"textbox\"][aria-multiline=\"true\"]",
   ".rps_1fb8 [role=\"textbox\"]"]

/-- `body.includes('<') && body.includes('>')` (src/index.js 409): the
decision to inject the body as HTML rather than fill it as plain text.
(`includes` of a single character is membership of that character;
stated over `toList` so that it evaluates by kernel reduction.) -/
def bodyIsHtml (body : String) : Bool :=
  body.toList.contains '<' && body.toList.contains '>'

inductive FillMethod where
  | html
  | text
deriving DecidableEq, Repr

/-- Environment of one body-locator rule: whether its `count() > 0`, and
whether the click / select-all / set-content steps succeed. -/
structure BodyRule where
  present : Bool
  stepsOk : Bool
deriving DecidableEq, Repr

/-- The body-fill loop over `seletoresCorpo` (src/index.js 398-430):
stops at the first rule that is present and whose steps succeed,
recording which fill method the `<` / `>` test chose; a rule that throws
midway is caught, logged, and skipped. -/
def bodyLoop (body : String) : List BodyRule → St → Option FillMethod × St
  | [], s => (none, s)
  | r :: rest, s =>
    if r.present then
      if r.stepsOk then
        (some (if bodyIsHtml body then .html else .text),
         stDelay 3000 (stDelay 1000 (stDelay 3000 s)))
      else bodyLoop body rest (stLog .warn "Tentativa de preencher corpo falhou" s)
    else bodyLoop body rest s

/-- The body block (src/index.js 387-435): skipped for an empty body
(JavaScript truthiness of `if (body)`); when no rule fills the body the
failure is only logged as a warning, never thrown. -/
def bodyPhase (body : String) (rules : List BodyRule) (s : St) :
    Option FillMethod × St :=
  if body.isEmpty then (none, s)
  else
    let s := stLog .info "✍️ Preenchendo corpo da mensagem..." s
    let p := bodyLoop body rules s
    match p.1 with
    | some m => (some m, p.2)
    | none =>
      (none, stLog .warn "⚠️ Não foi possível preencher o corpo da mensagem" p.2)

/-- Which of `pagina` / `contexto` / `navegador` are assigned (non-null)
when the `try` body of `enviarEmail` ends. -/
structure Handles where
  page : Bool
  ctx : Bool
  browser : Bool
deriving DecidableEq, Repr

inductive CloseEv where
  | page
  | ctx
  | browser
deriving DecidableEq, Repr

/-- Whether each `close()` call would succeed. -/
structure CloseEnv where
  pageOk : Bool
  ctxOk : Bool
  browserOk : Bool
deriving DecidableEq, Repr

/-- `navegador.close()` step of the `finally` block. -/
def cleanupBrowser (h : Handles) (ce : CloseEnv) (s : St) : List CloseEv × St :=
  if h.browser then
    if ce.browserOk then ([.browser], stLog .info "🔒 Navegador fechado" s)
    else ([.browser], stLog .warn "⚠️ Erro ao fechar recursos" s)
  else ([], s)

/-- `contexto.close()` step of the `finally` block, continuing with the
browser close on success. -/
def cleanupCtx (h : Handles) (ce : CloseEnv) (s : St) : List CloseEv × St :=
  if h.ctx then
    if ce.ctxOk then
      let p := cleanupBrowser h ce (stLog .info "🔒 Contexto fechado" s)
      (.ctx :: p.1, p.2)
    else ([.ctx], stLog .warn "⚠️ Erro ao fechar recursos" s)
  else cleanupBrowser h ce s

/-- The `finally` block (src/index.js 553-578): page, context and
browser are closed in that order, but inside a SINGLE
`try { ... } catch (closeError)` — the first close that throws jumps to
the catch (which only logs) and the remaining closes are not attempted.
Returns the closes attempted and the state after the block; nothing is
ever rethrown. -/
def cleanupRun (h : Handles) (ce : CloseEnv) (s : St) : List CloseEv × St :=
  if h.page then
    if ce.pageOk then
      let p := cleanupCtx h ce (stLog .info "📄 Página fechada" s)
      (.page :: p.1, p.2)
    else ([.page], stLog .warn "⚠️ Erro ao fechar recursos" s)
  else cleanupCtx h ce s

/-- Environment for one `enviarEmail` run: the outcome of every
browser-dependent step.  Steps the source wraps in `retryOperation` are
modelled by their overall (post-retries) outcome. -/
structure SendEnv where
  launchOk : Bool
  newContextOk : Bool
  newPageOk : Bool
  loginOk : Bool
  stayConnected : Bool
  networkIdleOk : Bool
  domLoadOk : Bool
  composeRules : List RuleEnv
  jsCompose : Bool
  composerOk : Bool
  paraOk : Bool
  ccEnv : CcEnv
  subjectOk : Bool
  bodyRules : List BodyRule
  sendOk : Bool
  memSnapshot : Nat

/-- The object returned by `enviarEmail` on success
(src/index.js 526-536).  `toAddrs` is the source field `to` (a reserved
token here); `memoryUsage` abstracts the `process.memoryUsage()`
snapshot. -/
structure SendResult where
  success : Bool
  toAddrs : List String
  cc : Option (List String)
  subject : String
  sentAt : String
  processingTimeMs : Nat
  logs : Option (List String)
  memoryUsage : Nat
  browser : String
deriving DecidableEq, Repr

/-! `new Date().toISOString()` is modelled as a function `nowISO` of the
elapsed clock throughout; the four phase functions below partition the
`try` body of `enviarEmail` (src/index.js 127-536) into its sequential
stages.  An `Except.error` is an exception escaping that stage. -/

/-- Browser launch, context and page creation, and the login sequence
(src/index.js 127-212): everything before the compose-button search.
On an escaping exception the carried `Handles` record which of
`pagina`/`contexto`/`navegador` had been assigned. -/
def setupPhase (env : SendEnv) (s : St) : Except (String × St × Handles) St :=
  let s := stLog .info "🚀 Iniciando navegador Chromium no Render..." s
  if !env.launchOk then .error ("launch failed", s, ⟨false, false, false⟩)
  else if !env.newContextOk then
    .error ("newContext failed", s, ⟨false, false, true⟩)
  else if !env.newPageOk then .error ("newPage failed", s, ⟨false, true, true⟩)
  else
    let s := stLog .info "🔐 Fazendo login no Outlook..." s
    if !env.loginOk then .error ("login failed", s, ⟨true, true, true⟩)
    else
      let s := if env.stayConnected
        then stLog .info "Selecionou Manter conectado" s
        else stLog .info "Prompt manter conectado não apareceu ou timeout" s
      if env.networkIdleOk then
        .ok (stLog .info "✅ Login realizado com sucesso!" (stDelay 8000 s))
      else
        let s := stLog .warn "Timeout em networkidle, continuando..." s
        if !env.domLoadOk then
          .error ("waitForLoadState failed", s, ⟨true, true, true⟩)
        else .ok (stLog .info "✅ Login realizado com sucesso!" (stDelay 8000 s))

/-- The wait for the composer surface (src/index.js 340-347). -/
def composeWait (env : SendEnv) (s : St) : Except (String × St) St :=
  if !env.composerOk then .error ("composer wait failed", s)
  else .ok (stLog .info "✅ Janela de composição aberta!" s)

/-- Compose-button resolution — the structural chain, then the scripted
fallback — followed by the composer wait (src/index.js 214-347). -/
def composePhase (env : SendEnv) (s : St) : Except (String × St) St :=
  let s := stLog .info "📝 Procurando botão Novo email..." s
  let structural := runChain env.composeRules 0
  if structural.1 then
    composeWait env (stLog .info "⏳ Aguardando janela de composição..." s)
  else if env.jsCompose then
    composeWait env (stLog .info "⏳ Aguardando janela de composição..."
      (stDelay 8000 (stLog .info "✅ Clicou usando JavaScript específico!" s)))
  else
    .error ("Não foi possível clicar no botão Novo email após todas as tentativas",
      s)

/-- Filling To, Cc, Subject and Body (src/index.js 349-435).  The Cc and
body sub-phases never throw; To and Subject fills may. -/
def fillPhase (cc : Option (List String)) (body : String) (env : SendEnv)
    (s : St) : Except (String × St) St :=
  let s := stLog .info "📧 Preenchendo destinatários..." s
  if !env.paraOk then .error ("fill Para failed", s)
  else
    let s := stDelay 3000 (stDelay 2000 s)
    let s := ccPhase cc env.ccEnv s
    let s := stLog .info "📌 Preenchendo assunto..." s
    if !env.subjectOk then .error ("fill Assunto failed", s)
    else
      let s := stDelay 3000 (stDelay 2000 s)
      .ok (bodyPhase body env.bodyRules s).2

/-- Triggering send, the fixed confirmation delay, and summary logging
(src/index.js 437-524). -/
def sendPhase (env : SendEnv) (s : St) : Except (String × St) St :=
  let s := stLog .info "📤 Enviando email..." s
  if !env.sendOk then
    .error ("Não foi possível encontrar o botão de enviar", s)
  else
    let s := stLog .info "✅ Email enviado com sucesso!" (stDelay 12000 s)
    .ok (stLog .info "📊 RESUMO DO ENVIO:" s)

/-- The `try` body of `enviarEmail` (src/index.js 127-536), from browser
launch to the success `return` (src/index.js 526-536), as the sequence
of its four stages. -/
def mainFlow (toAddrs : List String) (cc : Option (List String))
    (subject body : String) (debug : Bool) (env : SendEnv)
    (nowISO : Nat → String) (s : St) :
    Except String SendResult × St × Handles :=
  match setupPhase env s with
  | .error (e, s1, hd) => (.error e, s1, hd)
  | .ok s1 =>
    match composePhase env s1 with
    | .error (e, s2) => (.error e, s2, ⟨true, true, true⟩)
    | .ok s2 =>
      match fillPhase cc body env s2 with
      | .error (e, s3) => (.error e, s3, ⟨true, true, true⟩)
      | .ok s3 =>
        match sendPhase env s3 with
        | .error (e, s4) => (.error e, s4, ⟨true, true, true⟩)
        | .ok s4 =>
          (.ok
            { success := true
              toAddrs := toAddrs
              cc := cc
              subject := subject
              sentAt := nowISO s4.clock
              processingTimeMs := s4.clock
              logs := if debug then some (s4.trail.map LogEntry.msg) else none
              memoryUsage := env.memSnapshot
              browser := "chromium" }, s4, ⟨true, true, true⟩)


/-- Full observable outcome of one `enviarEmail` call: the value
returned or exception thrown, the final log trail (catch and finally
logging included), the close calls attempted by the `finally` block, and
the total modelled elapsed time. -/
structure SendOutcome where
  result : Except String SendResult
  trail : List LogEntry
  closes : List CloseEv
  elapsedMs : Nat

/-- `enviarEmail` (src/index.js 111-580): the `try` body, the `catch`
that logs and rethrows as `Falha no envio do email: ...`, and the
`finally` block. -/
def enviarEmail (toAddrs : List String) (cc : Option (List String))
    (subject body : String) (debug : Bool) (env : SendEnv) (ce : CloseEnv)
    (nowISO : Nat → String) : SendOutcome :=
  let m := mainFlow toAddrs cc subject body debug env nowISO ⟨[], 0⟩
  let afterCatch : St :=
    match m.1 with
    | .ok _ => m.2.1
    | .error e => stLog .error ("❌ Erro: " ++ e) m.2.1
  let fin := cleanupRun m.2.2 ce afterCatch
  { result :=
      match m.1 with
      | .ok r => .ok r
      | .error e => .error ("Falha no envio do email: " ++ e)
    trail := fin.2.trail
    closes := fin.1
    elapsedMs := fin.2.clock }

/-! ## Helper lemmas about trails and phases -/

theorem mem_trail_stLog (e : LogEntry) (lv : Level) (m : String) (s : St)
    (h : e ∈ s.trail) : e ∈ (stLog lv m s).trail :=
  List.mem_append_left _ h

theorem self_mem_stLog (lv : Level) (m : String) (s : St) :
    LogEntry.mk lv m ∈ (stLog lv m s).trail :=
  List.mem_append_right _ (List.mem_singleton.mpr rfl)

theorem ccPhase_warn (l : List String) (ecv : CcEnv) (s : St)
    (hl : l.length ≠ 0) (hf : ccFails ecv = true) :
    LogEntry.mk Level.warn "⚠️ Erro ao preencher CC" ∈
      (ccPhase (some l) ecv s).trail := by
  have hl0 : (l.length == 0) = false := by simpa using hl
  obtain ⟨bc, bk, fk⟩ := ecv
  by_cases hb : 0 < bc
  · cases bk <;> cases fk <;> simp [ccFails, hb] at hf <;>
      simp only [ccPhase, hl0, Bool.false_eq_true, if_false, hb, if_true] <;>
      exact self_mem_stLog _ _ _
  · cases fk
    · simp only [ccPhase, hl0, Bool.false_eq_true, if_false, hb, if_true]
      exact self_mem_stLog _ _ _
    · simp [ccFails, hb] at hf

theorem bodyLoop_none (body : String) (rules : List BodyRule) :
    ∀ s : St, (∀ br ∈ rules, br.present = false ∨ br.stepsOk = false) →
      (bodyLoop body rules s).1 = none := by
  induction rules with
  | nil => intro s _; rfl
  | cons r rest ih =>
    intro s h
    by_cases hp : r.present = true
    · have hs : r.stepsOk = false := by
        rcases h r (List.mem_cons_self r rest) with h1 | h1
        · rw [h1] at hp; exact absurd hp (by simp)
        · exact h1
      simp only [bodyLoop, hp, if_true, hs, Bool.false_eq_true, if_false]
      exact ih _ (fun br hbr => h br (List.mem_cons_of_mem r hbr))
    · have hp' : r.present = false := by simpa using hp
      simp only [bodyLoop, hp', Bool.false_eq_true, if_false]
      exact ih _ (fun br hbr => h br (List.mem_cons_of_mem r hbr))

theorem mem_trail_bodyLoop (body : String) (rules : List BodyRule) :
    ∀ (s : St) (e : LogEntry), e ∈ s.trail →
      e ∈ (bodyLoop body rules s).2.trail := by
  induction rules with
  | nil => intro s e h; exact h
  | cons r rest ih =>
    intro s e h
    by_cases hp : r.present = true
    · by_cases hs : r.stepsOk = true
      · simp only [bodyLoop, hp, hs, if_true]
        exact h
      · have hs' : r.stepsOk = false := by simpa using hs
        simp only [bodyLoop, hp, if_true, hs', Bool.false_eq_true, if_false]
        exact ih _ e (mem_trail_stLog e _ _ s h)
    · have hp' : r.present = false := by simpa using hp
      simp only [bodyLoop, hp', Bool.false_eq_true, if_false]
      exact ih _ e h

theorem mem_trail_bodyPhase (body : String) (rules : List BodyRule) (s : St)
    (e : LogEntry) (h : e ∈ s.trail) : e ∈ (bodyPhase body rules s).2.trail := by
  unfold bodyPhase
  by_cases hb : body.isEmpty = true
  · simp only [hb, if_true]
    exact h
  · have hb' : body.isEmpty = false := by simpa using hb
    simp only [hb', Bool.false_eq_true, if_false]
    have hcore := mem_trail_bodyLoop body rules
      (stLog .info "✍️ Preenchendo corpo da mensagem..." s) e
      (mem_trail_stLog e _ _ s h)
    cases hm : (bodyLoop body rules
        (stLog .info "✍️ Preenchendo corpo da mensagem..." s)).1 with
    | some m =>
      simp only [hm]
      exact hcore
    | none =>
      simp only [hm]
      exact mem_trail_stLog e _ _ _ hcore

theorem bodyPhase_warn (body : String) (rules : List BodyRule) (s : St)
    (hb : body.isEmpty = false)
    (hall : ∀ br ∈ rules, br.present = false ∨ br.stepsOk = false) :
    LogEntry.mk Level.warn "⚠️ Não foi possível preencher o corpo da mensagem" ∈
      (bodyPhase body rules s).2.trail := by
  unfold bodyPhase
  simp only [hb, Bool.false_eq_true, if_false]
  have hn := bodyLoop_none body rules
    (stLog .info "✍️ Preenchendo corpo da mensagem..." s) hall
  simp only [hn]
  exact self_mem_stLog _ _ _

theorem bodyLoop_some (body : String) (rules : List BodyRule) :
    ∀ (s : St) (m : FillMethod), (bodyLoop body rules s).1 = some m →
      m = (if bodyIsHtml body then FillMethod.html else FillMethod.text) := by
  induction rules with
  | nil => intro s m h; exact absurd h (by simp [bodyLoop])
  | cons r rest ih =>
    intro s m h
    by_cases hp : r.present = true
    · by_cases hs : r.stepsOk = true
      · simp only [bodyLoop, hp, hs, if_true] at h
        exact (Option.some.inj h).symm
      · have hs' : r.stepsOk = false := by simpa using hs
        simp only [bodyLoop, hp, if_true, hs', Bool.false_eq_true, if_false] at h
        exact ih _ m h
    · have hp' : r.present = false := by simpa using hp
      simp only [bodyLoop, hp', Bool.false_eq_true, if_false] at h
      exact ih _ m h

theorem mem_trail_cleanupBrowser (h : Handles) (ce : CloseEnv) (s : St)
    (e : LogEntry) (he : e ∈ s.trail) : e ∈ (cleanupBrowser h ce s).2.trail := by
  unfold cleanupBrowser
  split
  · split
    · exact mem_trail_stLog e _ _ s he
    · exact mem_trail_stLog e _ _ s he
  · exact he

theorem mem_trail_cleanupCtx (h : Handles) (ce : CloseEnv) (s : St)
    (e : LogEntry) (he : e ∈ s.trail) : e ∈ (cleanupCtx h ce s).2.trail := by
  unfold cleanupCtx
  split
  · split
    · exact mem_trail_cleanupBrowser h ce _ e (mem_trail_stLog e _ _ s he)
    · exact mem_trail_stLog e _ _ s he
  · exact mem_trail_cleanupBrowser h ce s e he

theorem mem_trail_cleanupRun (h : Handles) (ce : CloseEnv) (s : St)
    (e : LogEntry) (he : e ∈ s.trail) : e ∈ (cleanupRun h ce s).2.trail := by
  unfold cleanupRun
  split
  · split
    · exact mem_trail_cleanupCtx h ce _ e (mem_trail_stLog e _ _ s he)
    · exact mem_trail_stLog e _ _ s he
  · exact mem_trail_cleanupCtx h ce s e he

theorem cleanupRun_fst_sublist (h : Handles) (ce : CloseEnv) (s : St) :
    List.Sublist (cleanupRun h ce s).1
      [CloseEv.page, CloseEv.ctx, CloseEv.browser] := by
  obtain ⟨hp, hc, hb⟩ := h
  obtain ⟨p, c, b⟩ := ce
  cases hp <;> cases hc <;> cases hb <;> cases p <;> cases c <;> cases b <;>
    simp [cleanupRun, cleanupCtx, cleanupBrowser]

theorem cleanupRun_fst_allok (ce : CloseEnv) (s : St)
    (hp : ce.pageOk = true) (hc : ce.ctxOk = true) :
    (cleanupRun ⟨true, true, true⟩ ce s).1 =
      [CloseEv.page, CloseEv.ctx, CloseEv.browser] := by
  obtain ⟨p, c, b⟩ := ce
  subst hp
  subst hc
  cases b <;> simp [cleanupRun, cleanupCtx, cleanupBrowser]

theorem cleanupRun_fst_pagefail (ce : CloseEnv) (s : St)
    (hp : ce.pageOk = false) :
    (cleanupRun ⟨true, true, true⟩ ce s).1 = [CloseEv.page] := by
  simp [cleanupRun, hp]

/-- Recognizer for the fixed 24-character `Date.prototype.toISOString`
output format `YYYY-MM-DDTHH:MM:SS.mmmZ` — the runtime contract of the
`new Date().toISOString()` call that produces `sentAt`. -/
def isISO8601 (str : String) : Bool :=
  let cs := str.toList
  cs.length == 24 && (List.range 24).all fun i =>
    match cs.get? i with
    | none => false
    | some c =>
      if i == 4 || i == 7 then c == '-'
      else if i == 10 then c == 'T'
      else if i == 13 || i == 16 then c == ':'
      else if i == 19 then c == '.'
      else if i == 23 then c == 'Z'
      else c.isDigit

/-- All the steps that can abort `enviarEmail` succeed (after their
retries, where applicable); the Cc and body environments stay
arbitrary. -/
def happyPath (env : SendEnv) : Prop :=
  env.launchOk = true ∧ env.newContextOk = true ∧ env.newPageOk = true ∧
  env.loginOk = true ∧
  (env.networkIdleOk = true ∨ env.domLoadOk = true) ∧
  ((runChain env.composeRules 0).1 = true ∨ env.jsCompose = true) ∧
  env.composerOk = true ∧ env.paraOk = true ∧ env.subjectOk = true ∧
  env.sendOk = true

/-! ## Properties of `mainFlow` and `enviarEmail` -/

theorem sendPhase_clock (env : SendEnv) (s s2 : St)
    (h : sendPhase env s = .ok s2) : 0 < s2.clock := by
  simp only [sendPhase] at h
  split at h
  · exact Except.noConfusion h
  · have hs := Except.ok.inj h
    subst hs
    simp only [stLog, stDelay]
    omega

theorem sendPhase_mem (env : SendEnv) (s s2 : St) (e : LogEntry)
    (h : sendPhase env s = .ok s2) (he : e ∈ s.trail) : e ∈ s2.trail := by
  simp only [sendPhase] at h
  split at h
  · exact Except.noConfusion h
  · have hs := Except.ok.inj h
    subst hs
    exact mem_trail_stLog _ _ _ _ (mem_trail_stLog _ _ _ _
      (mem_trail_stLog _ _ _ _ he))

theorem fillPhase_body_warn (cc : Option (List String)) (body : String)
    (env : SendEnv) (s s2 : St) (h : fillPhase cc body env s = .ok s2)
    (hb : body.isEmpty = false)
    (hall : ∀ br ∈ env.bodyRules, br.present = false ∨ br.stepsOk = false) :
    LogEntry.mk Level.warn "⚠️ Não foi possível preencher o corpo da mensagem" ∈
      s2.trail := by
  simp only [fillPhase] at h
  repeat' split at h
  all_goals (try exact Except.noConfusion h)
  have hs := Except.ok.inj h
  subst hs
  exact bodyPhase_warn _ _ _ hb hall

theorem fillPhase_cc_warn (l : List String) (body : String)
    (env : SendEnv) (s s2 : St)
    (h : fillPhase (some l) body env s = .ok s2)
    (hl : l.length ≠ 0) (hf : ccFails env.ccEnv = true) :
    LogEntry.mk Level.warn "⚠️ Erro ao preencher CC" ∈ s2.trail := by
  simp only [fillPhase] at h
  repeat' split at h
  all_goals (try exact Except.noConfusion h)
  have hs := Except.ok.inj h
  subst hs
  exact mem_trail_bodyPhase _ _ _ _ (mem_trail_stLog _ _ _ _
    (ccPhase_warn l env.ccEnv _ hl hf))

theorem mainFlow_ok_props (toAddrs : List String) (cc : Option (List String))
    (subject body : String) (debug : Bool) (env : SendEnv)
    (nowISO : Nat → String) (s : St) (r : SendResult)
    (h : (mainFlow toAddrs cc subject body debug env nowISO s).1 = Except.ok r) :
    r.success = true ∧ r.toAddrs = toAddrs ∧ r.cc = cc ∧ r.subject = subject ∧
    (∃ t, r.sentAt = nowISO t ∧ r.processingTimeMs = t) ∧
    0 < r.processingTimeMs ∧
    r.logs.isSome = debug ∧ r.browser = "chromium" := by
  simp only [mainFlow] at h
  cases hsp : setupPhase env s with
  | error p =>
    obtain ⟨e, sx, hdx⟩ := p
    simp only [hsp] at h
    exact Except.noConfusion h
  | ok s1 =>
    simp only [hsp] at h
    cases hcp : composePhase env s1 with
    | error p =>
      obtain ⟨e, sx⟩ := p
      simp only [hcp] at h
      exact Except.noConfusion h
    | ok s2 =>
      simp only [hcp] at h
      cases hfp : fillPhase cc body env s2 with
      | error p =>
        obtain ⟨e, sx⟩ := p
        simp only [hfp] at h
        exact Except.noConfusion h
      | ok s3 =>
        simp only [hfp] at h
        cases hsnd : sendPhase env s3 with
        | error p =>
          obtain ⟨e, sx⟩ := p
          simp only [hsnd] at h
          exact Except.noConfusion h
        | ok s4 =>
          simp only [hsnd] at h
          have hr := Except.ok.inj h
          subst hr
          refine ⟨rfl, rfl, rfl, rfl, ⟨_, rfl, rfl⟩, ?_, ?_, rfl⟩
          · exact sendPhase_clock env s3 s4 hsnd
          · cases debug <;> simp

theorem setupPhase_handles (env : SendEnv) (s : St) (e : String) (s2 : St)
    (hd : Handles) (h1 : env.launchOk = true) (h2 : env.newContextOk = true)
    (h3 : env.newPageOk = true)
    (h : setupPhase env s = .error (e, s2, hd)) : hd = ⟨true, true, true⟩ := by
  simp only [setupPhase, h1, h2, h3, Bool.not_true, Bool.false_eq_true,
    if_false] at h
  repeat' split at h
  all_goals (try exact Except.noConfusion h)
  all_goals
    exact (congrArg (fun p => p.2.2) (Except.error.inj h)).symm

theorem mainFlow_handles (toAddrs : List String) (cc : Option (List String))
    (subject body : String) (debug : Bool) (env : SendEnv)
    (nowISO : Nat → String) (s : St)
    (h1 : env.launchOk = true) (h2 : env.newContextOk = true)
    (h3 : env.newPageOk = true) :
    (mainFlow toAddrs cc subject body debug env nowISO s).2.2 =
      ⟨true, true, true⟩ := by
  cases hsp : setupPhase env s with
  | error p =>
    obtain ⟨e, sx, hdx⟩ := p
    have hhd := setupPhase_handles env s e sx hdx h1 h2 h3 hsp
    simp [mainFlow, hsp, hhd]
  | ok s1 =>
    cases hcp : composePhase env s1 with
    | error p =>
      obtain ⟨e, sx⟩ := p
      simp [mainFlow, hsp, hcp]
    | ok s2 =>
      cases hfp : fillPhase cc body env s2 with
      | error p =>
        obtain ⟨e, sx⟩ := p
        simp [mainFlow, hsp, hcp, hfp]
      | ok s3 =>
        cases hsnd : sendPhase env s3 with
        | error p =>
          obtain ⟨e, sx⟩ := p
          simp [mainFlow, hsp, hcp, hfp, hsnd]
        | ok s4 =>
          simp [mainFlow, hsp, hcp, hfp, hsnd]

theorem setupPhase_ok (env : SendEnv) (s : St)
    (h1 : env.launchOk = true) (h2 : env.newContextOk = true)
    (h3 : env.newPageOk = true) (h4 : env.loginOk = true)
    (h5 : env.networkIdleOk = true ∨ env.domLoadOk = true) :
    ∃ s2, setupPhase env s = .ok s2 := by
  cases hni : env.networkIdleOk
  · have hdl : env.domLoadOk = true := by
      rcases h5 with h | h
      · rw [hni] at h; exact absurd h (by simp)
      · exact h
    cases hst : env.stayConnected <;>
      simp [setupPhase, h1, h2, h3, h4, hni, hdl, hst]
  · cases hst : env.stayConnected <;>
      simp [setupPhase, h1, h2, h3, h4, hni, hst]

theorem composePhase_ok (env : SendEnv) (s : St)
    (h6 : (runChain env.composeRules 0).1 = true ∨ env.jsCompose = true)
    (h7 : env.composerOk = true) :
    ∃ s2, composePhase env s = .ok s2 := by
  cases hstr : (runChain env.composeRules 0).1
  · have hjs : env.jsCompose = true := by
      rcases h6 with h | h
      · rw [hstr] at h; exact absurd h (by simp)
      · exact h
    simp [composePhase, composeWait, hstr, hjs, h7]
  · simp [composePhase, composeWait, hstr, h7]

theorem fillPhase_ok (cc : Option (List String)) (body : String)
    (env : SendEnv) (s : St)
    (h8 : env.paraOk = true) (h9 : env.subjectOk = true) :
    ∃ s2, fillPhase cc body env s = .ok s2 := by
  simp [fillPhase, h8, h9]

theorem sendPhase_ok (env : SendEnv) (s : St) (h10 : env.sendOk = true) :
    ∃ s2, sendPhase env s = .ok s2 := by
  simp [sendPhase, h10]

theorem mainFlow_happy (toAddrs : List String) (cc : Option (List String))
    (subject body : String) (debug : Bool) (env : SendEnv)
    (nowISO : Nat → String) (s : St) (h : happyPath env) :
    ∃ r, (mainFlow toAddrs cc subject body debug env nowISO s).1 =
      Except.ok r := by
  obtain ⟨h1, h2, h3, h4, h5, h6, h7, h8, h9, h10⟩ := h
  obtain ⟨s1, hs1⟩ := setupPhase_ok env s h1 h2 h3 h4 h5
  obtain ⟨s2, hs2⟩ := composePhase_ok env s1 h6 h7
  obtain ⟨s3, hs3⟩ := fillPhase_ok cc body env s2 h8 h9
  obtain ⟨s4, hs4⟩ := sendPhase_ok env s3 h10
  simp [mainFlow, hs1, hs2, hs3, hs4]

theorem mainFlow_body_warn (toAddrs : List String) (cc : Option (List String))
    (subject body : String) (debug : Bool) (env : SendEnv)
    (nowISO : Nat → String) (s : St) (r : SendResult) (st : St) (hd : Handles)
    (h : mainFlow toAddrs cc subject body debug env nowISO s =
      (Except.ok r, st, hd))
    (hb : body.isEmpty = false)
    (hall : ∀ br ∈ env.bodyRules, br.present = false ∨ br.stepsOk = false) :
    LogEntry.mk Level.warn "⚠️ Não foi possível preencher o corpo da mensagem" ∈
      st.trail := by
  simp only [mainFlow] at h
  cases hsp : setupPhase env s with
  | error p =>
    obtain ⟨e, sx, hdx⟩ := p
    simp only [hsp] at h
    exact Except.noConfusion (congrArg Prod.fst h)
  | ok s1 =>
    simp only [hsp] at h
    cases hcp : composePhase env s1 with
    | error p =>
      obtain ⟨e, sx⟩ := p
      simp only [hcp] at h
      exact Except.noConfusion (congrArg Prod.fst h)
    | ok s2 =>
      simp only [hcp] at h
      cases hfp : fillPhase cc body env s2 with
      | error p =>
        obtain ⟨e, sx⟩ := p
        simp only [hfp] at h
        exact Except.noConfusion (congrArg Prod.fst h)
      | ok s3 =>
        simp only [hfp] at h
        cases hsnd : sendPhase env s3 with
        | error p =>
          obtain ⟨e, sx⟩ := p
          simp only [hsnd] at h
          exact Except.noConfusion (congrArg Prod.fst h)
        | ok s4 =>
          simp only [hsnd] at h
          have hst : s4 = st := congrArg (fun p => p.2.1) h
          subst hst
          exact sendPhase_mem env s3 s4 _ hsnd
            (fillPhase_body_warn cc body env s2 s3 hfp hb hall)

theorem mainFlow_cc_warn (toAddrs : List String) (l : List String)
    (subject body : String) (debug : Bool) (env : SendEnv)
    (nowISO : Nat → String) (s : St) (r : SendResult) (st : St) (hd : Handles)
    (h : mainFlow toAddrs (some l) subject body debug env nowISO s =
      (Except.ok r, st, hd))
    (hl : l.length ≠ 0) (hf : ccFails env.ccEnv = true) :
    LogEntry.mk Level.warn "⚠️ Erro ao preencher CC" ∈ st.trail := by
  simp only [mainFlow] at h
  cases hsp : setupPhase env s with
  | error p =>
    obtain ⟨e, sx, hdx⟩ := p
    simp only [hsp] at h
    exact Except.noConfusion (congrArg Prod.fst h)
  | ok s1 =>
    simp only [hsp] at h
    cases hcp : composePhase env s1 with
    | error p =>
      obtain ⟨e, sx⟩ := p
      simp only [hcp] at h
      exact Except.noConfusion (congrArg Prod.fst h)
    | ok s2 =>
      simp only [hcp] at h
      cases hfp : fillPhase (some l) body env s2 with
      | error p =>
        obtain ⟨e, sx⟩ := p
        simp only [hfp] at h
        exact Except.noConfusion (congrArg Prod.fst h)
      | ok s3 =>
        simp only [hfp] at h
        cases hsnd : sendPhase env s3 with
        | error p =>
          obtain ⟨e, sx⟩ := p
          simp only [hsnd] at h
          exact Except.noConfusion (congrArg Prod.fst h)
        | ok s4 =>
          simp only [hsnd] at h
          have hst : s4 = st := congrArg (fun p => p.2.1) h
          subst hst
          exact sendPhase_mem env s3 s4 _ hsnd
            (fillPhase_cc_warn l body env s2 s3 hfp hl hf)

theorem enviarEmail_result_ok (toAddrs : List String)
    (cc : Option (List String)) (subject body : String) (debug : Bool)
    (env : SendEnv) (ce : CloseEnv) (nowISO : Nat → String) (r : SendResult) :
    (enviarEmail toAddrs cc subject body debug env ce nowISO).result =
        Except.ok r ↔
      (mainFlow toAddrs cc subject body debug env nowISO ⟨[], 0⟩).1 =
        Except.ok r := by
  unfold enviarEmail
  cases hm : (mainFlow toAddrs cc subject body debug env nowISO ⟨[], 0⟩).1 with
  | ok r' => simp [hm]
  | error e => simp [hm]

theorem enviarEmail_closes_eq (toAddrs : List String)
    (cc : Option (List String)) (subject body : String) (debug : Bool)
    (env : SendEnv) (ce : CloseEnv) (nowISO : Nat → String) :
    ∃ s : St, (enviarEmail toAddrs cc subject body debug env ce nowISO).closes =
      (cleanupRun (mainFlow toAddrs cc subject body debug env nowISO
        ⟨[], 0⟩).2.2 ce s).1 :=
  ⟨_, rfl⟩

theorem enviarEmail_trail_ok (toAddrs : List String)
    (cc : Option (List String)) (subject body : String) (debug : Bool)
    (env : SendEnv) (ce : CloseEnv) (nowISO : Nat → String) (r : SendResult)
    (h : (mainFlow toAddrs cc subject body debug env nowISO ⟨[], 0⟩).1 =
      Except.ok r) :
    (enviarEmail toAddrs cc subject body debug env ce nowISO).trail =
      (cleanupRun (mainFlow toAddrs cc subject body debug env nowISO
          ⟨[], 0⟩).2.2 ce
        (mainFlow toAddrs cc subject body debug env nowISO ⟨[], 0⟩).2.1).2.trail := by
  unfold enviarEmail
  simp [h]

/-! ## Claim theorems about `enviarEmail` -/

/-- C7: every successful `enviarEmail` run returns `success = true`,
echoes the normalized to/cc/subject of the request, a `sentAt` produced
by the ISO-8601 timestamp formatter, a strictly positive processing
time, and a captured-logs field present exactly when `debug` is set. -/
theorem send_success_result (toAddrs : List String)
    (cc : Option (List String)) (subject body : String) (debug : Bool)
    (env : SendEnv) (ce : CloseEnv) (nowISO : Nat → String) (r : SendResult)
    (h : (enviarEmail toAddrs cc subject body debug env ce nowISO).result =
      Except.ok r)
    (hiso : ∀ t, isISO8601 (nowISO t) = true) :
    r.success = true ∧ r.toAddrs = toAddrs ∧ r.cc = cc ∧ r.subject = subject ∧
    isISO8601 r.sentAt = true ∧ 0 < r.processingTimeMs ∧
    r.logs.isSome = debug ∧ r.browser = "chromium" := by
  have hm := (enviarEmail_result_ok toAddrs cc subject body debug env ce
    nowISO r).mp h
  obtain ⟨hs, hta, hcc, hsub, ⟨t, hsent, hpt⟩, hpos, hlogs, hbr⟩ :=
    mainFlow_ok_props toAddrs cc subject body debug env nowISO ⟨[], 0⟩ r hm
  refine ⟨hs, hta, hcc, hsub, ?_, hpos, hlogs, hbr⟩
  rw [hsent]
  exact hiso t

/-- A fully successful environment, used for concrete witness runs. -/
def allOkEnv : SendEnv :=
  { launchOk := true, newContextOk := true, newPageOk := true,
    loginOk := true, stayConnected := true, networkIdleOk := true,
    domLoadOk := true,
    composeRules := [RuleEnv.cands [⟨some true, some true, true⟩]],
    jsCompose := true, composerOk := true, paraOk := true,
    ccEnv := ⟨0, true, true⟩, subjectOk := true,
    bodyRules := [⟨true, true⟩], sendOk := true, memSnapshot := 0 }

/-- A fixed ISO-8601 timestamp formatter for witness runs. -/
def isoConst : Nat → String := fun _ => "2024-01-01T00:00:00.000Z"

def happyOutcome : SendOutcome :=
  enviarEmail ["a@example.com"] none "Hi" "" false allOkEnv
    ⟨true, true, true⟩ isoConst

def happyResult : SendResult :=
  match happyOutcome.result with
  | .ok r => r
  | .error _ => ⟨false, [], none, "", "", 0, none, 0, ""⟩

/-- Witness for C7: a concrete all-successful run. -/
theorem isoConst_iso (t : Nat) : isISO8601 (isoConst t) = true := by
  show isISO8601 "2024-01-01T00:00:00.000Z" = true
  decide

theorem send_success_result_witness :
    happyResult.success = true ∧ 0 < happyResult.processingTimeMs ∧
    happyResult.logs.isSome = false := by
  have h := send_success_result ["a@example.com"] none "Hi" "" false allOkEnv
    ⟨true, true, true⟩ isoConst happyResult (by rfl) isoConst_iso
  exact ⟨h.1, h.2.2.2.2.2.1, h.2.2.2.2.2.2.1⟩

/-- C3 (amended): on every exit path, success or failure, the `finally`
block runs and attempts the closes in the order page, context, browser;
no close failure is ever re-raised — the operation's result is
independent of the close environment; when all three resources were
acquired and the page and context closes succeed, all three closes are
attempted; but the three closes sit under one single guard, so when the
page close fails, the context and browser closes are NOT attempted. -/
theorem release_behavior (toAddrs : List String) (cc : Option (List String))
    (subject body : String) (debug : Bool) (env : SendEnv) (ce ce2 : CloseEnv)
    (nowISO : Nat → String) :
    (enviarEmail toAddrs cc subject body debug env ce nowISO).result =
      (enviarEmail toAddrs cc subject body debug env ce2 nowISO).result ∧
    List.Sublist (enviarEmail toAddrs cc subject body debug env ce nowISO).closes
      [CloseEv.page, CloseEv.ctx, CloseEv.browser] ∧
    (env.launchOk = true → env.newContextOk = true → env.newPageOk = true →
      ce.pageOk = true → ce.ctxOk = true →
      (enviarEmail toAddrs cc subject body debug env ce nowISO).closes =
        [CloseEv.page, CloseEv.ctx, CloseEv.browser]) ∧
    (env.launchOk = true → env.newContextOk = true → env.newPageOk = true →
      ce.pageOk = false →
      (enviarEmail toAddrs cc subject body debug env ce nowISO).closes =
        [CloseEv.page]) := by
  obtain ⟨sc, hcl⟩ := enviarEmail_closes_eq toAddrs cc subject body debug env
    ce nowISO
  refine ⟨rfl, ?_, ?_, ?_⟩
  · rw [hcl]
    exact cleanupRun_fst_sublist _ ce sc
  · intro h1 h2 h3 hp hc
    rw [hcl, mainFlow_handles toAddrs cc subject body debug env nowISO
      ⟨[], 0⟩ h1 h2 h3]
    exact cleanupRun_fst_allok ce sc hp hc
  · intro h1 h2 h3 hp
    rw [hcl, mainFlow_handles toAddrs cc subject body debug env nowISO
      ⟨[], 0⟩ h1 h2 h3]
    exact cleanupRun_fst_pagefail ce sc hp

/-- Witness for C3 (amended): a concrete run in which all three closes
succeed and are all attempted. -/
theorem release_behavior_witness :
    (enviarEmail ["a@example.com"] none "Hi" "" false allOkEnv
      ⟨true, true, true⟩ isoConst).closes =
      [CloseEv.page, CloseEv.ctx, CloseEv.browser] :=
  (release_behavior ["a@example.com"] none "Hi" "" false allOkEnv
    ⟨true, true, true⟩ ⟨true, true, true⟩ isoConst).2.2.1 rfl rfl rfl rfl rfl

/-- C3 as stated is refuted: with all three resources acquired, a failing
`pagina.close()` jumps to the shared catch and the context and browser
closes are never attempted — the closes are not independently guarded. -/
theorem release_guard_counterexample :
    (enviarEmail ["a@example.com"] none "Hi" "" false allOkEnv
      ⟨false, true, true⟩ isoConst).closes = [CloseEv.page] := by
  decide

/-- C6: when every abortable step succeeds, a failure of all Cc-fill
steps or of all body-locator rules never aborts the send: the operation
still returns a result with `success = true`, and the failure is
recorded as a warning in the log trail. -/
theorem degraded_fill_not_fatal (toAddrs : List String)
    (cc : Option (List String)) (subject body : String) (debug : Bool)
    (env : SendEnv) (ce : CloseEnv) (nowISO : Nat → String)
    (h : happyPath env) :
    (∃ r, (enviarEmail toAddrs cc subject body debug env ce nowISO).result =
        Except.ok r ∧ r.success = true) ∧
    (body.isEmpty = false →
      (∀ br ∈ env.bodyRules, br.present = false ∨ br.stepsOk = false) →
      LogEntry.mk Level.warn "⚠️ Não foi possível preencher o corpo da mensagem" ∈
        (enviarEmail toAddrs cc subject body debug env ce nowISO).trail) ∧
    (∀ l, cc = some l → l.length ≠ 0 → ccFails env.ccEnv = true →
      LogEntry.mk Level.warn "⚠️ Erro ao preencher CC" ∈
        (enviarEmail toAddrs cc subject body debug env ce nowISO).trail) := by
  obtain ⟨r, hok⟩ := mainFlow_happy toAddrs cc subject body debug env nowISO
    ⟨[], 0⟩ h
  have hfull : mainFlow toAddrs cc subject body debug env nowISO ⟨[], 0⟩ =
      (Except.ok r,
       (mainFlow toAddrs cc subject body debug env nowISO ⟨[], 0⟩).2.1,
       (mainFlow toAddrs cc subject body debug env nowISO ⟨[], 0⟩).2.2) := by
    rw [← hok]
  have htr := enviarEmail_trail_ok toAddrs cc subject body debug env ce
    nowISO r hok
  refine ⟨⟨r, (enviarEmail_result_ok toAddrs cc subject body debug env ce
      nowISO r).mpr hok,
    (mainFlow_ok_props toAddrs cc subject body debug env nowISO ⟨[], 0⟩
      r hok).1⟩, ?_, ?_⟩
  · intro hb hall
    rw [htr]
    exact mem_trail_cleanupRun _ ce _ _
      (mainFlow_body_warn toAddrs cc subject body debug env nowISO ⟨[], 0⟩
        r _ _ hfull hb hall)
  · intro l hccl hl hf
    subst hccl
    rw [htr]
    exact mem_trail_cleanupRun _ ce _ _
      (mainFlow_cc_warn toAddrs l subject body debug env nowISO ⟨[], 0⟩
        r _ _ hfull hl hf)

/-- An environment in which every abortable step succeeds but the Cc
fill and every body-locator rule fail. -/
def degradedEnv : SendEnv :=
  { allOkEnv with bodyRules := [⟨true, false⟩], ccEnv := ⟨0, true, false⟩ }

/-- Witness for C6: a concrete degraded run in which both warnings are in
the trail (and the send still succeeded). -/
theorem degraded_fill_not_fatal_witness :
    LogEntry.mk Level.warn "⚠️ Não foi possível preencher o corpo da mensagem" ∈
      (enviarEmail ["a@example.com"] (some ["c@example.com"]) "Hi" "corpo"
        false degradedEnv ⟨true, true, true⟩ isoConst).trail ∧
    LogEntry.mk Level.warn "⚠️ Erro ao preencher CC" ∈
      (enviarEmail ["a@example.com"] (some ["c@example.com"]) "Hi" "corpo"
        false degradedEnv ⟨true, true, true⟩ isoConst).trail := by
  have h := degraded_fill_not_fatal ["a@example.com"] (some ["c@example.com"])
    "Hi" "corpo" false degradedEnv ⟨true, true, true⟩ isoConst
    ⟨rfl, rfl, rfl, rfl, Or.inl rfl, Or.inr rfl, rfl, rfl, rfl, rfl⟩
  exact ⟨h.2.1 (by decide) (by decide),
    h.2.2 ["c@example.com"] rfl (by decide) (by decide)⟩

/-- C9: when the body block fills the message body, it injects the body
as structured HTML exactly when the body contains at least one `<` and
at least one `>` character, anywhere and regardless of whether they form
markup; otherwise it fills it as literal text. -/
theorem body_html_detection (body : String) (rules : List BodyRule) (s : St)
    (hb : body.isEmpty = false) (m : FillMethod)
    (h : (bodyPhase body rules s).1 = some m) :
    (m = FillMethod.html ↔
      (body.toList.contains '<' && body.toList.contains '>') = true) := by
  have hm : m = (if bodyIsHtml body then FillMethod.html else FillMethod.text) := by
    simp only [bodyPhase, hb, Bool.false_eq_true, if_false] at h
    cases hl : (bodyLoop body rules
        (stLog .info "✍️ Preenchendo corpo da mensagem..." s)).1 with
    | some mx =>
      simp only [hl] at h
      have hmx := Option.some.inj h
      rw [← hmx]
      exact bodyLoop_some body rules _ mx hl
    | none =>
      simp only [hl] at h
      exact Option.noConfusion h
  subst hm
  unfold bodyIsHtml
  by_cases hh : (body.toList.contains '<' && body.toList.contains '>') = true
  · simp [hh]
  · simp [hh]

/-- Witness for C9: the body `1 < 2 and 3 > 2` contains `<` and `>`
without forming markup, and is still injected as HTML. -/
theorem body_html_detection_witness :
    ((bodyPhase "1 < 2 and 3 > 2" [⟨true, true⟩] ⟨[], 0⟩).1 =
      some FillMethod.html) ∧
    (FillMethod.html = FillMethod.html ↔
      ("1 < 2 and 3 > 2".toList.contains '<' &&
       "1 < 2 and 3 > 2".toList.contains '>') = true) := by
  refine ⟨by decide, ?_⟩
  exact body_html_detection "1 < 2 and 3 > 2" [⟨true, true⟩] ⟨[], 0⟩
    (by decide) FillMethod.html (by decide)

/-! ## Request schema (`EmailSchema`, src/index.js 98-107) and the
POST /send-email route (src/index.js 625-710) -/

/-- A JSON value that is a single string or a list of strings — the two
shapes `to` and `cc` accept. -/
inductive StrOrList where
  | s (v : String)
  | l (vs : List String)
deriving DecidableEq, Repr

/-- The request body of POST /send-email; `none` is an absent field.
`toField` is the source field `to` (a reserved token here).
Structurally ill-typed JSON values, which zod also rejects, are outside
this model. -/
structure RawReq where
  email : Option String
  password : Option String
  toField : Option StrOrList
  cc : Option StrOrList
  subject : Option String
  body : Option String
  debug : Option Bool
  priority : Option String
deriving DecidableEq, Repr

inductive Priority where
  | low
  | normal
  | high
deriving DecidableEq, Repr

/-- The parsed, defaulted and normalized request
(`parseResult.data`). -/
structure ParsedEmail where
  email : String
  password : String
  toAddrs : List String
  cc : Option (List String)
  subject : String
  body : String
  debug : Bool
  priority : Priority
deriving DecidableEq, Repr

/-- `z.union([z.string().email(), z.array(z.string().email())])
.transform(val => Array.isArray(val) ? val : [val])`: a single address
becomes a one-element list, a list is kept as-is; every element must
satisfy the e-mail validator `isEmail` (zod library code, abstracted as
a parameter). -/
def parseToField (isEmail : String → Bool) : StrOrList → Option (List String)
  | .s v => if isEmail v then some [v] else none
  | .l vs => if vs.all isEmail then some vs else none

/-- `z.enum(['low','normal','high']).default('normal')`. -/
def parsePriority : Option String → Option Priority
  | none => some .normal
  | some "low" => some .low
  | some "normal" => some .normal
  | some "high" => some .high
  | some _ => none

def parseEmailField (isEmail : String → Bool) (r : RawReq) : Option String :=
  r.email.bind fun v => if isEmail v then some v else none

def parsePasswordField (r : RawReq) : Option String :=
  r.password.bind fun v => if 1 ≤ v.length then some v else none

def parseToOpt (isEmail : String → Bool) (r : RawReq) : Option (List String) :=
  r.toField.bind (parseToField isEmail)

def parseCcField (isEmail : String → Bool) (r : RawReq) :
    Option (Option (List String)) :=
  match r.cc with
  | none => some none
  | some v => (parseToField isEmail v).map some

def parseSubjectField (r : RawReq) : Option String :=
  r.subject.bind fun v => if 1 ≤ v.length then some v else none

/-- The names of the fields that fail validation (the keys of
`parseResult.error.flatten().fieldErrors`). -/
def fieldErrors (isEmail : String → Bool) (r : RawReq) : List String :=
  (if (parseEmailField isEmail r).isSome then [] else ["email"]) ++
  (if (parsePasswordField r).isSome then [] else ["password"]) ++
  (if (parseToOpt isEmail r).isSome then [] else ["to"]) ++
  (if (parseCcField isEmail r).isSome then [] else ["cc"]) ++
  (if (parseSubjectField r).isSome then [] else ["subject"]) ++
  (if (parsePriority r.priority).isSome then [] else ["priority"])

/-- `EmailSchema.safeParse` (src/index.js 98-107, used at 632): the
request is accepted iff every field validates, applying the defaults
(`body` "", `debug` false, `priority` normal); on failure the offending
field names are reported as structured detail. -/
def parseEmailSchema (isEmail : String → Bool) (r : RawReq) :
    Except (List String) ParsedEmail :=
  match parseEmailField isEmail r, parsePasswordField r, parseToOpt isEmail r,
      parseCcField isEmail r, parseSubjectField r, parsePriority r.priority with
  | some e, some pw, some t, some c, some su, some pr =>
    .ok ⟨e, pw, t, c, su, r.body.getD "", r.debug.getD false, pr⟩
  | _, _, _, _, _, _ => .error (fieldErrors isEmail r)

/-- The shape of the HTTP response of POST /send-email. -/
inductive RouteResp where
  | badRequest (error message : String) (details : List String)
  | success (status message : String) (data : SendResult)
  | failure (error message : String)
deriving DecidableEq, Repr

structure RouteOutcome where
  status : Nat
  browserInvoked : Bool
  resp : RouteResp

/-- The POST /send-email handler (src/index.js 625-710): schema
validation, the browser automation, then response assembly.
`overheadMs` is the route-level time spent outside `enviarEmail` inside
the route's own `startTime` / `Date.now()` bracket; the route-measured
`processingTime` overwrites the `processingTimeMs` computed inside
`enviarEmail` through the object spread `{ ...result,
processingTimeMs: processingTime }`. -/
def sendEmailRoute (isEmail : String → Bool) (r : RawReq) (env : SendEnv)
    (ce : CloseEnv) (nowISO : Nat → String) (overheadMs : Nat) :
    RouteOutcome :=
  match parseEmailSchema isEmail r with
  | .error _ =>
    ⟨400, false, .badRequest "dados_invalidos" "Dados da requisição inválidos"
      (fieldErrors isEmail r)⟩
  | .ok p =>
    let out := enviarEmail p.toAddrs p.cc p.subject p.body p.debug env ce nowISO
    match out.result with
    | .ok res =>
      let processingTime := overheadMs + out.elapsedMs
      ⟨200, true, .success "sucesso" "Email enviado com sucesso via Chromium!"
        { res with processingTimeMs := processingTime }⟩
    | .error e => ⟨500, true, .failure "falha_envio" e⟩

theorem parseEmailSchema_missing_subject (isEmail : String → Bool) (r : RawReq)
    (hs : parseSubjectField r = none) :
    parseEmailSchema isEmail r = .error (fieldErrors isEmail r) ∧
    "subject" ∈ fieldErrors isEmail r := by
  constructor
  · unfold parseEmailSchema
    cases he : parseEmailField isEmail r <;>
    cases hpw : parsePasswordField r <;>
    cases ht : parseToOpt isEmail r <;>
    cases hc : parseCcField isEmail r <;>
    cases hpr : parsePriority r.priority <;>
    simp [he, hpw, ht, hc, hpr, hs]
  · unfold fieldErrors
    refine List.mem_append_left _ (List.mem_append_right _ ?_)
    simp [hs]

/-- C5: a request whose `subject` is missing (or is the empty string) is
rejected with HTTP 400, carrying the error code and the structured
validation detail naming `subject`, and the browser automation is never
invoked. -/
theorem missing_subject_rejected (isEmail : String → Bool) (r : RawReq)
    (env : SendEnv) (ce : CloseEnv) (nowISO : Nat → String) (overheadMs : Nat)
    (h : r.subject = none ∨ r.subject = some "") :
    (sendEmailRoute isEmail r env ce nowISO overheadMs).status = 400 ∧
    (sendEmailRoute isEmail r env ce nowISO overheadMs).browserInvoked = false ∧
    (sendEmailRoute isEmail r env ce nowISO overheadMs).resp =
      RouteResp.badRequest "dados_invalidos" "Dados da requisição inválidos"
        (fieldErrors isEmail r) ∧
    "subject" ∈ fieldErrors isEmail r := by
  have hs : parseSubjectField r = none := by
    rcases h with h | h <;> simp [parseSubjectField, h]
  obtain ⟨hperr, hmem⟩ := parseEmailSchema_missing_subject isEmail r hs
  refine ⟨?_, ?_, ?_, hmem⟩ <;> simp [sendEmailRoute, hperr]

/-- A request with no subject. -/
def noSubjReq : RawReq :=
  ⟨some "a@b.co", some "pw", some (.s "d@e.fi"), none, none, some "oi",
   none, none⟩

/-- Witness for C5: a concrete request missing `subject`. -/
theorem missing_subject_rejected_witness :
    (sendEmailRoute (fun v => v.toList.contains (Char.ofNat 64)) noSubjReq
      allOkEnv ⟨true, true, true⟩ isoConst 5).status = 400 ∧
    (sendEmailRoute (fun v => v.toList.contains (Char.ofNat 64)) noSubjReq
      allOkEnv ⟨true, true, true⟩ isoConst 5).browserInvoked = false := by
  have h := missing_subject_rejected (fun v => v.toList.contains (Char.ofNat 64))
    noSubjReq allOkEnv ⟨true, true, true⟩ isoConst 5 (Or.inl rfl)
  exact ⟨h.1, h.2.1⟩

/-- C4 (amended): for every request the schema accepts, `to` is
normalized to a list: a single address string becomes a one-element —
hence non-empty — list, and a supplied list is kept as-is; but an empty
supplied list is accepted and yields an empty normalized list, so the
result is not always non-empty. -/
theorem to_normalization (isEmail : String → Bool) (r : RawReq)
    (p : ParsedEmail) (h : parseEmailSchema isEmail r = .ok p) :
    (∀ v, r.toField = some (StrOrList.s v) →
      p.toAddrs = [v] ∧ p.toAddrs ≠ []) ∧
    (∀ vs, r.toField = some (StrOrList.l vs) → p.toAddrs = vs) := by
  have hto : parseToOpt isEmail r = some p.toAddrs := by
    unfold parseEmailSchema at h
    cases he : parseEmailField isEmail r <;>
      cases hpw : parsePasswordField r <;>
      cases ht : parseToOpt isEmail r <;>
      cases hc : parseCcField isEmail r <;>
      cases hsu : parseSubjectField r <;>
      cases hpr : parsePriority r.priority <;>
      rw [he, hpw, ht, hc, hsu, hpr] at h <;>
      first
        | exact Except.noConfusion h
        | exact congrArg some (congrArg ParsedEmail.toAddrs (Except.ok.inj h))
  constructor
  · intro v hv
    have hto2 : (if isEmail v then some [v] else none) = some p.toAddrs := by
      unfold parseToOpt at hto
      rw [hv] at hto
      exact hto
    split at hto2
    · have h2 := Option.some.inj hto2
      exact ⟨h2.symm, by rw [← h2]; simp⟩
    · exact Option.noConfusion hto2
  · intro vs hv
    have hto2 : (if vs.all isEmail then some vs else none) = some p.toAddrs := by
      unfold parseToOpt at hto
      rw [hv] at hto
      exact hto
    split at hto2
    · exact (Option.some.inj hto2).symm
    · exact Option.noConfusion hto2

/-- A request supplying `to` as the empty array. -/
def emptyToReq : RawReq :=
  ⟨some "a@b.co", some "pw", some (.l []), none, some "Oi", none, none, none⟩

/-- C4 as stated is refuted: a request supplying `to: []` passes the
schema — the empty array satisfies `z.array(z.string().email())` — and
the normalized recipient list is empty, not non-empty. -/
theorem to_normalization_counterexample :
    parseEmailSchema (fun v => v.toList.contains (Char.ofNat 64)) emptyToReq =
      Except.ok ⟨"a@b.co", "pw", [], none, "Oi", "", false, Priority.normal⟩ := by
  rfl

/-- A request supplying `to` as a single address string. -/
def singleToReq : RawReq :=
  ⟨some "a@b.co", some "pw", some (.s "d@e.fi"), none, some "Oi", none,
   none, none⟩

/-- Witness for C4 (amended): a single-address request is widened to a
one-element, non-empty list. -/
theorem to_normalization_witness :
    (parseEmailSchema (fun v => v.toList.contains (Char.ofNat 64)) singleToReq =
      Except.ok ⟨"a@b.co", "pw", ["d@e.fi"], none, "Oi", "", false,
        Priority.normal⟩) ∧
    (["d@e.fi"] : List String) ≠ [] := by
  refine ⟨by rfl, ?_⟩
  have h := to_normalization (fun v => v.toList.contains (Char.ofNat 64))
    singleToReq
    ⟨"a@b.co", "pw", ["d@e.fi"], none, "Oi", "", false, Priority.normal⟩
    (by rfl)
  exact (h.1 "d@e.fi" rfl).2

/-- C10: in the HTTP 200 response, `data.processingTimeMs` equals the
route-measured duration (route overhead plus the whole `enviarEmail`
elapsed time), overwriting the `processingTimeMs` computed inside the
send operation; every other field of the SendResult is passed through
unchanged. -/
theorem route_overwrites_processing_time (isEmail : String → Bool)
    (r : RawReq) (env : SendEnv) (ce : CloseEnv) (nowISO : Nat → String)
    (overheadMs : Nat) (p : ParsedEmail) (res : SendResult)
    (hp : parseEmailSchema isEmail r = .ok p)
    (hres : (enviarEmail p.toAddrs p.cc p.subject p.body p.debug env ce
      nowISO).result = .ok res) :
    (sendEmailRoute isEmail r env ce nowISO overheadMs).status = 200 ∧
    (sendEmailRoute isEmail r env ce nowISO overheadMs).resp =
      RouteResp.success "sucesso" "Email enviado com sucesso via Chromium!"
        { success := res.success, toAddrs := res.toAddrs, cc := res.cc,
          subject := res.subject, sentAt := res.sentAt,
          processingTimeMs := overheadMs + (enviarEmail p.toAddrs p.cc
            p.subject p.body p.debug env ce nowISO).elapsedMs,
          logs := res.logs, memoryUsage := res.memoryUsage,
          browser := res.browser } := by
  constructor <;> simp [sendEmailRoute, hp, hres]

/-- The concrete successful result of the witness route call. -/
def routeResultW : SendResult :=
  match (enviarEmail ["d@e.fi"] none "Oi" "" false allOkEnv
      ⟨true, true, true⟩ isoConst).result with
  | .ok r => r
  | .error _ => ⟨false, [], none, "", "", 0, none, 0, ""⟩

/-- Witness for C10: a concrete all-successful route call returns 200. -/
theorem route_overwrites_processing_time_witness :
    (sendEmailRoute (fun v => v.toList.contains (Char.ofNat 64)) singleToReq
      allOkEnv ⟨true, true, true⟩ isoConst 5).status = 200 := by
  have h := route_overwrites_processing_time
    (fun v => v.toList.contains (Char.ofNat 64)) singleToReq allOkEnv
    ⟨true, true, true⟩ isoConst 5
    ⟨"a@b.co", "pw", ["d@e.fi"], none, "Oi", "", false, Priority.normal⟩
    routeResultW (by rfl) (by rfl)
  exact h.1

end EmailApi
